import Mathlib

set_option maxHeartbeats 1000000
set_option linter.unusedVariables false

/-!
Shallow embedding of `monitor_script.py` (the PDF monitor).

Pure text manipulation (`detect_changes`, the summarizer's string handling,
report bodies) is translated directly.  External effects (HTTP fetch +
PDF extraction, the language-model call, SMTP delivery, the snapshot file)
are passed in as explicit inputs, and the observable actions of a run
(summarizer calls, email notifications, snapshot writes) are recorded as an
event list, so the orchestrator's control flow can be stated and proved.
-/

/-- Characters removed by Python's `str.strip()` (the ASCII whitespace set). -/
def pyWhitespace (c : Char) : Bool :=
  c == ' ' || c == '\t' || c == '\n' || c == '\r' || c == '\x0b' || c == '\x0c'

/-- Model of Python `s.strip()`: remove leading and trailing whitespace. -/
def pyStrip (s : String) : String :=
  String.mk (((s.data.dropWhile pyWhitespace).reverse.dropWhile pyWhitespace).reverse)

/-- Model of Python slicing `s[:n]` (slicing counts characters). -/
def pyTake (n : Nat) (s : String) : String :=
  String.mk (s.data.take n)

/-- Model of Python `''.join(strings)`. -/
def joinStr : List String → String
  | [] => ""
  | s :: rest => s ++ joinStr rest

/-- Model of Python `str.splitlines(keepends=True)` on the underlying
character list, covering the line terminators `\n`, `\r\n` and `\r`
(Python additionally splits on a few rarer control characters). -/
def splitChars : List Char → List String
  | [] => []
  | '\n' :: cs => "\n" :: splitChars cs
  | '\r' :: '\n' :: cs => "\r\n" :: splitChars cs
  | '\r' :: cs => "\r" :: splitChars cs
  | c :: cs =>
    match splitChars cs with
    | [] => [String.mk [c]]
    | l :: ls => String.mk (c :: l.data) :: ls

/-- Model of Python `s.splitlines(keepends=True)`. -/
def splitlinesKeepends (s : String) : List String :=
  splitChars s.data

/-- Length of a longest common subsequence of two line lists.  Used to make
the modelled diff's delete/insert choices deterministic and LCS-based. -/
def lcsLen : List String → List String → Nat
  | [], _ => 0
  | _ :: _, [] => 0
  | x :: xs, y :: ys =>
    if x = y then lcsLen xs ys + 1
    else max (lcsLen xs (y :: ys)) (lcsLen (x :: xs) ys)
termination_by a b => a.length + b.length

/-- A single line-level diff operation: keep, delete or insert one line. -/
inductive DOp where
  | eq (s : String)
  | del (s : String)
  | ins (s : String)
deriving DecidableEq, Repr

/-- Modelled from the spec: `difflib.SequenceMatcher`-style alignment of two
line lists "via longest-common-subsequence-based matching (standard
unified-diff algorithm)", as an explicit deterministic edit script.  The
Python library's matcher itself is not part of this repository. -/
def diffOps : List String → List String → List DOp
  | [], ys => ys.map DOp.ins
  | x :: xs, [] => DOp.del x :: diffOps xs []
  | x :: xs, y :: ys =>
    if x = y then DOp.eq x :: diffOps xs ys
    else if lcsLen (x :: xs) ys ≤ lcsLen xs (y :: ys) then
      DOp.del x :: diffOps xs (y :: ys)
    else
      DOp.ins y :: diffOps (x :: xs) ys
termination_by a b => a.length + b.length

/-- The lines of the old text described by an edit script. -/
def oldOf : List DOp → List String
  | [] => []
  | DOp.eq s :: t => s :: oldOf t
  | DOp.del s :: t => s :: oldOf t
  | DOp.ins _ :: t => oldOf t

/-- The lines of the new text described by an edit script. -/
def newOf : List DOp → List String
  | [] => []
  | DOp.eq s :: t => s :: newOf t
  | DOp.del _ :: t => newOf t
  | DOp.ins s :: t => s :: newOf t

/-- A maximal run of identical consecutive diff operations, mirroring one
opcode (`equal` / `delete` / `insert`) of `difflib`'s opcode list. -/
inductive Run where
  | eqs (ls : List String)
  | dels (ls : List String)
  | inss (ls : List String)
deriving DecidableEq, Repr

/-- Coalesce an edit script into opcode runs. -/
def toRuns : List DOp → List Run
  | [] => []
  | DOp.eq s :: t =>
    match toRuns t with
    | Run.eqs ls :: rs => Run.eqs (s :: ls) :: rs
    | rs => Run.eqs [s] :: rs
  | DOp.del s :: t =>
    match toRuns t with
    | Run.dels ls :: rs => Run.dels (s :: ls) :: rs
    | rs => Run.dels [s] :: rs
  | DOp.ins s :: t =>
    match toRuns t with
    | Run.inss ls :: rs => Run.inss (s :: ls) :: rs
    | rs => Run.inss [s] :: rs

/-- Old-side lines of one run. -/
def runOld : Run → List String
  | Run.eqs ls => ls
  | Run.dels ls => ls
  | Run.inss _ => []

/-- New-side lines of one run. -/
def runNew : Run → List String
  | Run.eqs ls => ls
  | Run.dels _ => []
  | Run.inss ls => ls

/-- Old-side lines of a run list. -/
def runsOld : List Run → List String
  | [] => []
  | r :: rs => runOld r ++ runsOld rs

/-- New-side lines of a run list. -/
def runsNew : List Run → List String
  | [] => []
  | r :: rs => runNew r ++ runsNew rs

/-- Whether a run is an `equal` run. -/
def Run.isEqs : Run → Bool
  | Run.eqs _ => true
  | _ => false

/-- Whether a group of runs contains any change (a delete or insert). -/
def hasChange (rs : List Run) : Bool :=
  rs.any fun r => !r.isEqs

/-- One unified-diff hunk: 0-based start positions in the old and new line
lists, plus the opcode runs the hunk covers. -/
structure Hunk where
  oldStart : Nat
  newStart : Nat
  runs : List Run
deriving DecidableEq, Repr

/-- Modelled from the spec: `difflib`'s grouping of opcodes into hunks with
3 lines of context (`get_grouped_opcodes(3)`): a long `equal` run ends the
current group with 3 trailing context lines and starts the next group with
3 leading context lines; a trailing `equal` run is trimmed to 3 lines; a
group with no changes is dropped.  Arguments: position in old text, position
in new text, group start in old, group start in new, accumulated group
(reversed), remaining runs. -/
def groupsAux : Nat → Nat → Nat → Nat → List Run → List Run → List Hunk
  | _, _, s, t, acc, [] =>
    if hasChange acc then [⟨s, t, acc.reverse⟩] else []
  | _, _, s, t, acc, [Run.eqs ls] =>
    if hasChange acc then [⟨s, t, (Run.eqs (ls.take 3) :: acc).reverse⟩] else []
  | p, q, s, t, acc, Run.eqs ls :: r :: rs =>
    if 6 < ls.length then
      ⟨s, t, (Run.eqs (ls.take 3) :: acc).reverse⟩ ::
        groupsAux (p + ls.length) (q + ls.length) (p + ls.length - 3) (q + ls.length - 3)
          [Run.eqs (ls.drop (ls.length - 3))] (r :: rs)
    else
      groupsAux (p + ls.length) (q + ls.length) s t (Run.eqs ls :: acc) (r :: rs)
  | p, q, s, t, acc, Run.dels ls :: rs =>
    groupsAux (p + ls.length) q s t (Run.dels ls :: acc) rs
  | p, q, s, t, acc, Run.inss ls :: rs =>
    groupsAux p (q + ls.length) s t (Run.inss ls :: acc) rs

/-- Modelled from the spec: entry point of the hunk grouping — a leading
`equal` run is first trimmed to its last 3 lines of context. -/
def makeGroups : List Run → List Hunk
  | Run.eqs ls :: rs =>
    groupsAux ls.length ls.length (ls.length - min ls.length 3)
      (ls.length - min ls.length 3)
      [Run.eqs (ls.drop (ls.length - min ls.length 3))] rs
  | rs => groupsAux 0 0 0 0 [] rs

/-- The hunks of the modelled unified diff of two line lists. -/
def makeHunks (a b : List String) : List Hunk :=
  makeGroups (toRuns (diffOps a b))

/-- Old-side lines of a hunk (context plus deletions). -/
def hunkOld (h : Hunk) : List String :=
  runsOld h.runs

/-- New-side lines of a hunk (context plus insertions). -/
def hunkNew (h : Hunk) : List String :=
  runsNew h.runs

/-- Model of `difflib._format_range_unified`: render a 0-based half-open
line range in unified-diff header form (1-based; an empty range is shown at
the line just before it, a one-line range shows no length). -/
def fmtRange (start stop : Nat) : String :=
  let length := stop - start
  if length = 1 then toString (start + 1)
  else toString (if length = 0 then start else start + 1) ++ "," ++ toString length

/-- Render one run of a hunk body with the unified-diff line prefixes. -/
def renderRun : Run → String
  | Run.eqs ls => joinStr (ls.map fun l => " " ++ l)
  | Run.dels ls => joinStr (ls.map fun l => "-" ++ l)
  | Run.inss ls => joinStr (ls.map fun l => "+" ++ l)

/-- Render one hunk: the `@@` header (with empty `lineterm`, as in the
script's call) directly followed by the prefixed body lines. -/
def renderHunk (h : Hunk) : String :=
  "@@ -" ++ fmtRange h.oldStart (h.oldStart + (hunkOld h).length) ++
    " +" ++ fmtRange h.newStart (h.newStart + (hunkNew h).length) ++ " @@" ++
    joinStr (h.runs.map renderRun)

/-- Modelled from the spec: `''.join(difflib.unified_diff(old, new,
fromfile='Previous Week', tofile='Current Week', lineterm=''))` — the two
file headers (without line terminator, since `lineterm=''`) followed by the
rendered hunks, all concatenated; empty when there are no hunks. -/
def renderDiff (a b : List String) : String :=
  match makeHunks a b with
  | [] => ""
  | hs => "--- Previous Week" ++ "+++ Current Week" ++ joinStr (hs.map renderHunk)

/-- Standard unified-diff patch semantics, on the hunk structure that the
rendered diff denotes: hunks are applied in order; for each hunk, the lines
between the current position and the hunk's old start are copied unchanged,
the hunk's old side (context and `-` lines) must match the old text at the
hunk's stated position, and is replaced by the hunk's new side (context and
`+` lines); a mismatch fails. -/
def applyHunks : List Hunk → Nat → List String → Option (List String)
  | [], _, lines => some lines
  | h :: hs, pos, lines =>
    if h.oldStart < pos then none
    else if (lines.drop (h.oldStart - pos)).take (hunkOld h).length = hunkOld h then
      match applyHunks hs (h.oldStart + (hunkOld h).length)
          (lines.drop (h.oldStart - pos + (hunkOld h).length)) with
      | some out => some (lines.take (h.oldStart - pos) ++ hunkNew h ++ out)
      | none => none
    else none

/-- Apply a hunk list to an old text (as lines), from position 0. -/
def patchUnified (hs : List Hunk) (a : List String) : Option (List String) :=
  applyHunks hs 0 a

/-- Embedding of `detect_changes(old_content, new_content)`: first-run when
the previous content is falsy (empty), unchanged when both strip to the same
text, otherwise the joined unified diff of the kept-ends line splits. -/
def detect_changes (old_content new_content : String) : String × String :=
  if old_content = "" then
    ("First run - no previous content to compare", new_content)
  else if pyStrip old_content = pyStrip new_content then
    ("No changes detected", "")
  else
    ("Changes detected",
      renderDiff (splitlinesKeepends old_content) (splitlinesKeepends new_content))

/-- Embedding of `load_previous_content()`: the snapshot file's text when it
exists, `""` when the file is absent (`FileNotFoundError`). -/
def load_previous_content (file : Option String) : String :=
  match file with
  | some content => content
  | none => ""

/-- The prompt built by `analyze_changes_with_claude` around the first 8000
characters of the diff (the trailing `# Limit to avoid token limits` is
literal text inside the Python f-string). -/
def promptFor (diff_text : String) : String :=
  "Please analyze the changes in this document and provide a clear, concise summary.\n    \nFocus on:\n- What sections changed\n- Key additions or deletions\n- Important updates or modifications\n- Overall significance of changes\n\nHere are the detected changes:\n" ++
    pyTake 8000 diff_text ++
    "  # Limit to avoid token limits\n\nPlease provide a professional summary suitable for an email."

/-- Embedding of `analyze_changes_with_claude(diff_text, new_content)`.
The external service is an explicit function from prompt to reply or error;
the second component records the prompts actually sent, so "no outbound
call" is the empty list.  The Python guard `not diff_text or diff_text ==
""` holds exactly when the diff is empty; on a service failure the function
returns the fallback text instead of raising (the client construction on the
function's first line performs no outbound call). `new_content` is accepted
and unused, as in the script. -/
def analyze_changes_with_claude (claude : String → Except String String)
    (diff_text new_content : String) : String × List String :=
  if diff_text = "" then ("No changes to analyze.", [])
  else
    let prompt := promptFor diff_text
    match claude prompt with
    | Except.ok text => (text, [prompt])
    | Except.error e =>
      ("Error analyzing changes with Claude: " ++ e ++ "\n\nRaw diff:\n" ++
        pyTake 2000 diff_text, [prompt])

/-- The success-path body for an unchanged document. -/
def noChangesBody (date pdf_url : String) : String :=
  "Weekly PDF Monitoring Report - " ++ date ++
    "\n\nNo changes detected in the monitored PDF since last week.\n\nDocument URL: " ++
    pdf_url ++ "\nStatus: Up to date\n"

/-- The success-path body for a changed document, around the summary. -/
def changesBody (date analysis pdf_url : String) : String :=
  "Weekly PDF Monitoring Report - " ++ date ++
    "\n\nChanges have been detected in the monitored PDF!\n\nSUMMARY:\n" ++
    analysis ++ "\n\nDocument URL: " ++ pdf_url ++
    "\nStatus: Updated\n\n---\nThis is an automated report from your PDF monitoring system.\n"

/-- The error-path body, containing the error text and the monitored URL. -/
def errorBody (date err pdf_url : String) : String :=
  "PDF Monitoring Error - " ++ date ++
    "\n\nAn error occurred while monitoring the PDF:\n\nError: " ++ err ++
    "\n\nDocument URL: " ++ pdf_url ++
    "\n\nPlease check the GitHub Actions logs for more details.\n"

/-- An observable action of one run: an outbound summarizer call (with its
prompt), an email notification (`send_email` swallows delivery errors, so a
notification is a single event), or a snapshot write
(`save_current_content`). -/
inductive Event where
  | summarize (prompt : String)
  | notify (subject body : String)
  | persist (content : String)
deriving DecidableEq, Repr

/-- Whether an event is an outbound summarizer call. -/
def Event.isSummarizeCall : Event → Bool
  | Event.summarize _ => true
  | _ => false

/-- Whether an event is a snapshot write. -/
def Event.isPersistWrite : Event → Bool
  | Event.persist _ => true
  | _ => false

namespace Monitor

/-- Embedding of `main()`.  `fetchResult` is the outcome of
`download_and_extract_pdf` (extracted text, or the raised error's text);
`previousFile` is the snapshot file's state; `claude` the external service.
Returns the run outcome (`error e` when `main` re-raises) and the events in
order.  On a fetch failure the `except` block sends exactly the error email
and re-raises; on success the email is sent and only then the snapshot is
written. -/
def main (pdf_url date : String) (fetchResult : Except String String)
    (previousFile : Option String) (claude : String → Except String String) :
    Except String Unit × List Event :=
  match fetchResult with
  | Except.error e =>
    (Except.error e,
      [Event.notify "PDF Monitor: Error Occurred" (errorBody date e pdf_url)])
  | Except.ok current_content =>
    let previous_content := load_previous_content previousFile
    let res := detect_changes previous_content current_content
    if res.1 = "No changes detected" then
      (Except.ok (),
        [Event.notify "PDF Monitor: No Changes This Week" (noChangesBody date pdf_url),
          Event.persist current_content])
    else
      let ana := analyze_changes_with_claude claude res.2 current_content
      (Except.ok (),
        ana.2.map Event.summarize ++
          [Event.notify "PDF Monitor: Changes Detected" (changesBody date ana.1 pdf_url),
            Event.persist current_content])

end Monitor

/-! ### General helper lemmas -/

theorem strAppend_assoc (a b c : String) : a ++ b ++ c = a ++ (b ++ c) := by
  apply String.ext
  simp [String.data_append, List.append_assoc]

/-! ### C2: comparing a text against itself -/

/-- C2 counterexample: comparing the empty text against itself does not
yield the "No changes detected" classification — `detect_changes "" ""`
takes the first-run branch instead, because the emptiness test on the
previous content runs before the equality test. -/
theorem C2_counterexample :
    detect_changes "" "" ≠ ("No changes detected", "") := by
  decide

/-- C2 amended: for every non-empty text block A, comparing A against
itself yields the "No changes detected" classification with an empty diff;
the empty text instead takes the first-run branch. -/
theorem C2_self_is_unchanged (A : String) (h : A ≠ "") :
    detect_changes A A = ("No changes detected", "") := by
  simp [detect_changes, h]

/-- C2 witness: the amended statement at the concrete text "x". -/
theorem C2_self_is_unchanged_witness :
    "x" ≠ "" ∧ detect_changes "x" "x" = ("No changes detected", "") :=
  ⟨by decide, C2_self_is_unchanged "x" (by decide)⟩

/-! ### C3: first-run classification and payload -/

/-- C3: for every current text, when the previous snapshot is empty (and an
absent snapshot file loads as the empty string), `detect_changes` returns
the first-run classification and its diff payload is exactly the entire
current text. -/
theorem C3_first_run_payload (cur : String) :
    detect_changes "" cur = ("First run - no previous content to compare", cur) ∧
    load_previous_content none = "" := by
  exact ⟨by simp [detect_changes], rfl⟩

/-! ### C7: empty diff short-circuits the summarizer -/

/-- C7: for every external service and every `new_content`, the summarizer
called with an empty diff returns the fixed "No changes to analyze."
message and records no outbound call. -/
theorem C7_empty_diff_short_circuit (claude : String → Except String String)
    (new_content : String) :
    analyze_changes_with_claude claude "" new_content =
      ("No changes to analyze.", []) := by
  simp [analyze_changes_with_claude]

/-! ### C8: summarizer failure fallback -/

/-- C8: for every non-empty diff, when the external call fails with error
text `e` the summarizer returns (instead of raising) the fallback string,
which contains the error description and a raw-diff excerpt bounded to 2000
characters. -/
theorem C8_failure_fallback (e diff new_content : String) (h : diff ≠ "") :
    analyze_changes_with_claude (fun _ => Except.error e) diff new_content =
      ("Error analyzing changes with Claude: " ++ e ++ "\n\nRaw diff:\n" ++
        pyTake 2000 diff, [promptFor diff]) ∧
    (pyTake 2000 diff).length ≤ 2000 ∧
    (∃ pre post,
      ("Error analyzing changes with Claude: " ++ e ++ "\n\nRaw diff:\n" ++
        pyTake 2000 diff) = pre ++ (e ++ post)) := by
  refine ⟨by simp [analyze_changes_with_claude, h], ?_, ?_⟩
  · show (diff.data.take 2000).length ≤ 2000
    simp
  · exact ⟨"Error analyzing changes with Claude: ",
      "\n\nRaw diff:\n" ++ pyTake 2000 diff, by rw [strAppend_assoc, strAppend_assoc]⟩

/-- C8 witness: the fallback behaviour at the concrete error "boom" and the
concrete one-character diff "d". -/
theorem C8_failure_fallback_witness :
    "d" ≠ "" ∧
    (analyze_changes_with_claude (fun _ => Except.error "boom") "d" "" =
      ("Error analyzing changes with Claude: " ++ "boom" ++ "\n\nRaw diff:\n" ++
        pyTake 2000 "d", [promptFor "d"]) ∧
    (pyTake 2000 "d").length ≤ 2000 ∧
    (∃ pre post,
      ("Error analyzing changes with Claude: " ++ "boom" ++ "\n\nRaw diff:\n" ++
        pyTake 2000 "d") = pre ++ ("boom" ++ post))) :=
  ⟨by decide, C8_failure_fallback "boom" "d" "" (by decide)⟩

/-! ### C10: empty snapshot file vs absent snapshot file -/

/-- C10: a snapshot file that exists but is empty loads exactly like an
absent one, and for every current text (the empty one included) the
subsequent detection classifies the run as a first run, never as
"No changes detected". -/
theorem C10_empty_file_like_absent :
    load_previous_content (some "") = load_previous_content none ∧
    ∀ cur : String,
      (detect_changes (load_previous_content (some "")) cur).1 =
        "First run - no previous content to compare" ∧
      (detect_changes (load_previous_content (some "")) cur).1 ≠
        "No changes detected" := by
  refine ⟨rfl, fun cur => ?_⟩
  have h1 : (detect_changes (load_previous_content (some "")) cur).1 =
      "First run - no previous content to compare" := by
    simp [detect_changes, load_previous_content]
  exact ⟨h1, by rw [h1]; decide⟩

/-- On a non-empty diff the summarizer makes exactly one outbound call,
whether the service succeeds or fails. -/
theorem analyze_calls_of_ne (claude : String → Except String String)
    (d nc : String) (h : d ≠ "") :
    (analyze_changes_with_claude claude d nc).2 = [promptFor d] := by
  unfold analyze_changes_with_claude
  rw [if_neg h]
  cases hc : claude (promptFor d) <;> simp [hc]

/-! ### C1: first-run notification and summarizer input -/

/-- C1 counterexample: on a first run with current text "hello", the diff
payload produced for the summarizer is the non-empty current text, and the
orchestrated run does make an outbound summarizer call — refuting that the
summarizer receives no diff payload on a first run. -/
theorem C1_counterexample :
    (detect_changes "" "hello").2 ≠ "" ∧
    ((Monitor.main "u" "2025-01-01" (Except.ok "hello") none
        fun _ => Except.ok "S").2.any Event.isSummarizeCall) = true := by
  constructor
  · decide
  · decide

/-- C1 amended: on a first run (no previous snapshot), the run is treated
as a changed state for notification purposes (subject "PDF Monitor: Changes
Detected"), and the diff payload passed to the summarizer is the entirety
of the current text: when the current text is non-empty, one outbound
summarizer call is made, with the prompt built from that text. -/
theorem C1_first_run_notifies_and_summarizes (url date cur : String)
    (claude : String → Except String String) (h : cur ≠ "") :
    Monitor.main url date (Except.ok cur) none claude =
      (Except.ok (),
        [Event.summarize (promptFor cur),
          Event.notify "PDF Monitor: Changes Detected"
            (changesBody date (analyze_changes_with_claude claude cur cur).1 url),
          Event.persist cur]) ∧
    (detect_changes (load_previous_content none) cur).2 = cur := by
  refine ⟨?_, by simp [detect_changes, load_previous_content]⟩
  have hd : detect_changes "" cur =
      ("First run - no previous content to compare", cur) := by
    simp [detect_changes]
  simp only [Monitor.main, load_previous_content, hd,
    analyze_calls_of_ne claude cur cur h]
  simp

/-- C1 witness: the amended statement at current text "hello". -/
theorem C1_first_run_notifies_and_summarizes_witness :
    "hello" ≠ "" ∧
    (Monitor.main "u" "d" (Except.ok "hello") none (fun _ => Except.ok "S") =
      (Except.ok (),
        [Event.summarize (promptFor "hello"),
          Event.notify "PDF Monitor: Changes Detected"
            (changesBody "d"
              (analyze_changes_with_claude (fun _ => Except.ok "S") "hello" "hello").1 "u"),
          Event.persist "hello"]) ∧
    (detect_changes (load_previous_content none) "hello").2 = "hello") :=
  ⟨by decide,
    C1_first_run_notifies_and_summarizes "u" "d" "hello" (fun _ => Except.ok "S")
      (by decide)⟩

/-! ### C4: failure before notifying -/

/-- C4: when the step before notifying fails (the fetch/extract call, the
fallible step of the orchestrated run, raises with error text `e`), the run
notifies exactly once with subject "PDF Monitor: Error Occurred" and a body
containing the error description and the monitored URL, performs no
snapshot write, and re-raises the error to its caller. -/
theorem C4_error_notifies_once_and_reraises (url date e : String)
    (prev : Option String) (claude : String → Except String String) :
    Monitor.main url date (Except.error e) prev claude =
      (Except.error e,
        [Event.notify "PDF Monitor: Error Occurred" (errorBody date e url)]) ∧
    (∃ pre post, errorBody date e url = pre ++ (e ++ post)) ∧
    (∃ pre post, errorBody date e url = pre ++ (url ++ post)) := by
  refine ⟨rfl, ?_, ?_⟩
  · refine ⟨"PDF Monitoring Error - " ++ date ++
      "\n\nAn error occurred while monitoring the PDF:\n\nError: ",
      "\n\nDocument URL: " ++ url ++
        "\n\nPlease check the GitHub Actions logs for more details.\n", ?_⟩
    simp only [errorBody, strAppend_assoc]
  · refine ⟨"PDF Monitoring Error - " ++ date ++
      "\n\nAn error occurred while monitoring the PDF:\n\nError: " ++ e ++
      "\n\nDocument URL: ",
      "\n\nPlease check the GitHub Actions logs for more details.\n", ?_⟩
    simp only [errorBody, strAppend_assoc]

/-! ### C5: the snapshot write happens last, and only on success -/

/-- C5: on the error path no snapshot write occurs at all, and on the
success path the events are some summarizer calls followed by exactly one
notification and then the snapshot write of the current content — so the
write executes only after notifying, and a failed run leaves the stored
baseline untouched. -/
theorem C5_persist_after_notify_only_on_success (url date e cur : String)
    (prev : Option String) (claude : String → Except String String) :
    ((Monitor.main url date (Except.error e) prev claude).2.all
      fun ev => !ev.isPersistWrite) = true ∧
    ∃ pre subj body,
      (Monitor.main url date (Except.ok cur) prev claude).2 =
        pre ++ [Event.notify subj body, Event.persist cur] ∧
      pre.all Event.isSummarizeCall = true ∧
      (Monitor.main url date (Except.ok cur) prev claude).1 = Except.ok () := by
  constructor
  · rfl
  · simp only [Monitor.main]
    by_cases hc : (detect_changes (load_previous_content prev) cur).1 =
        "No changes detected"
    · rw [if_pos hc]
      exact ⟨[], _, _, rfl, rfl, rfl⟩
    · rw [if_neg hc]
      refine ⟨(analyze_changes_with_claude claude
          (detect_changes (load_previous_content prev) cur).2 cur).2.map
          Event.summarize, _, _, rfl, ?_, rfl⟩
      simp [List.all_map, Event.isSummarizeCall]

/-! ### C6: unchanged run skips the summarizer and still persists -/

/-- C6: whenever detection yields "No changes detected" (non-empty previous
snapshot, equal after stripping), the run makes no summarizer call, builds
the fixed no-changes report with subject "PDF Monitor: No Changes This
Week", and still writes the snapshot with the current (identically
compared) content. -/
theorem C6_unchanged_skips_summarizer_still_persists (url date prev cur : String)
    (claude : String → Except String String) (h1 : prev ≠ "")
    (h2 : pyStrip prev = pyStrip cur) :
    Monitor.main url date (Except.ok cur) (some prev) claude =
      (Except.ok (),
        [Event.notify "PDF Monitor: No Changes This Week" (noChangesBody date url),
          Event.persist cur]) := by
  have hd : detect_changes prev cur = ("No changes detected", "") := by
    simp [detect_changes, h1, h2]
  simp [Monitor.main, load_previous_content, hd]

/-- C6 witness: the unchanged behaviour at the spec's concrete scenario
`previous = current = "Report v1\nSection A"`. -/
theorem C6_unchanged_skips_summarizer_still_persists_witness :
    "Report v1\nSection A" ≠ "" ∧
    pyStrip "Report v1\nSection A" = pyStrip "Report v1\nSection A" ∧
    Monitor.main "u" "d" (Except.ok "Report v1\nSection A")
        (some "Report v1\nSection A") (fun _ => Except.ok "S") =
      (Except.ok (),
        [Event.notify "PDF Monitor: No Changes This Week" (noChangesBody "d" "u"),
          Event.persist "Report v1\nSection A"]) :=
  ⟨by decide, rfl,
    C6_unchanged_skips_summarizer_still_persists "u" "d" "Report v1\nSection A"
      "Report v1\nSection A" (fun _ => Except.ok "S") (by decide) rfl⟩

/-! ### C9 development: the modelled diff patches the old text to the new -/

theorem oldOf_map_ins (ys : List String) : oldOf (ys.map DOp.ins) = [] := by
  induction ys with
  | nil => rfl
  | cons y ys ih => simp [oldOf, ih]

theorem newOf_map_ins (ys : List String) : newOf (ys.map DOp.ins) = ys := by
  induction ys with
  | nil => rfl
  | cons y ys ih => simp [newOf, ih]

/-- The edit script's old side is the old line list. -/
theorem oldOf_diffOps (a b : List String) : oldOf (diffOps a b) = a := by
  induction a, b using diffOps.induct with
  | case5 x xs y ys h h2 ih =>
    simp only [diffOps]
    rw [if_neg h, if_neg (by omega)]
    simp_all [oldOf]
  | _ => simp_all [diffOps, oldOf, oldOf_map_ins]

/-- The edit script's new side is the new line list. -/
theorem newOf_diffOps (a b : List String) : newOf (diffOps a b) = b := by
  induction a, b using diffOps.induct with
  | case5 x xs y ys h h2 ih =>
    simp only [diffOps]
    rw [if_neg h, if_neg (by omega)]
    simp_all [newOf]
  | _ => simp_all [diffOps, newOf, newOf_map_ins]

theorem runsOld_append (u v : List Run) :
    runsOld (u ++ v) = runsOld u ++ runsOld v := by
  induction u with
  | nil => rfl
  | cons r u ih => simp [runsOld, ih]

theorem runsNew_append (u v : List Run) :
    runsNew (u ++ v) = runsNew u ++ runsNew v := by
  induction u with
  | nil => rfl
  | cons r u ih => simp [runsNew, ih]

/-- Coalescing preserves the old side. -/
theorem runsOld_toRuns (ops : List DOp) : runsOld (toRuns ops) = oldOf ops := by
  induction ops with
  | nil => rfl
  | cons op t ih =>
    cases op with
    | eq s =>
      simp only [toRuns]
      cases htr : toRuns t with
      | nil => rw [htr] at ih; simp [runsOld, runOld, oldOf, ← ih]
      | cons r rest =>
        rw [htr] at ih
        cases r <;> simp [runsOld, runOld, oldOf, ← ih]
    | del s =>
      simp only [toRuns]
      cases htr : toRuns t with
      | nil => rw [htr] at ih; simp [runsOld, runOld, oldOf, ← ih]
      | cons r rest =>
        rw [htr] at ih
        cases r <;> simp [runsOld, runOld, oldOf, ← ih]
    | ins s =>
      simp only [toRuns]
      cases htr : toRuns t with
      | nil => rw [htr] at ih; simp [runsOld, runOld, oldOf, ← ih]
      | cons r rest =>
        rw [htr] at ih
        cases r <;> simp [runsOld, runOld, oldOf, ← ih]

/-- Coalescing preserves the new side. -/
theorem runsNew_toRuns (ops : List DOp) : runsNew (toRuns ops) = newOf ops := by
  induction ops with
  | nil => rfl
  | cons op t ih =>
    cases op with
    | eq s =>
      simp only [toRuns]
      cases htr : toRuns t with
      | nil => rw [htr] at ih; simp [runsNew, runNew, newOf, ← ih]
      | cons r rest =>
        rw [htr] at ih
        cases r <;> simp [runsNew, runNew, newOf, ← ih]
    | del s =>
      simp only [toRuns]
      cases htr : toRuns t with
      | nil => rw [htr] at ih; simp [runsNew, runNew, newOf, ← ih]
      | cons r rest =>
        rw [htr] at ih
        cases r <;> simp [runsNew, runNew, newOf, ← ih]
    | ins s =>
      simp only [toRuns]
      cases htr : toRuns t with
      | nil => rw [htr] at ih; simp [runsNew, runNew, newOf, ← ih]
      | cons r rest =>
        rw [htr] at ih
        cases r <;> simp [runsNew, runNew, newOf, ← ih]

/-- A group with no change has equal old and new sides. -/
theorem runsOld_eq_runsNew_of_no_change (l : List Run)
    (h : hasChange l = false) : runsOld l = runsNew l := by
  induction l with
  | nil => rfl
  | cons r rest ih =>
    simp only [hasChange, List.any_cons, Bool.or_eq_false_iff] at h
    obtain ⟨h1, h2⟩ := h
    cases r with
    | eqs ls =>
      simp [runsOld, runsNew, runOld, runNew, ih (by simpa [hasChange] using h2)]
    | dels ls => simp [Run.isEqs] at h1
    | inss ls => simp [Run.isEqs] at h1

/-- Applying hunks further right is stable under prepending untouched
lines: shifting the starting position left by `mid.length` and prepending
`mid` prepends `mid` to the patched output. -/
theorem applyHunks_shift (hs : List Hunk) (pos : Nat) (mid suff out : List String)
    (hap : applyHunks hs (pos + mid.length) suff = some out) :
    applyHunks hs pos (mid ++ suff) = some (mid ++ out) := by
  cases hs with
  | nil =>
    simp only [applyHunks, Option.some.injEq] at hap ⊢
    rw [hap]
  | cons h hs =>
    simp only [applyHunks] at hap ⊢
    by_cases h1 : h.oldStart < pos + mid.length
    · rw [if_pos h1] at hap; exact absurd hap (by simp)
    · rw [if_neg h1] at hap
      have h2 : ¬ h.oldStart < pos := by omega
      rw [if_neg h2]
      have e1 : (mid ++ suff).drop (h.oldStart - pos) =
          suff.drop (h.oldStart - (pos + mid.length)) := by
        have e : h.oldStart - pos = mid.length + (h.oldStart - (pos + mid.length)) := by
          omega
        rw [e, List.drop_append]
      have e2 : (mid ++ suff).drop (h.oldStart - pos + (hunkOld h).length) =
          suff.drop (h.oldStart - (pos + mid.length) + (hunkOld h).length) := by
        have e : h.oldStart - pos + (hunkOld h).length =
            mid.length + (h.oldStart - (pos + mid.length) + (hunkOld h).length) := by
          omega
        rw [e, List.drop_append]
      have e3 : (mid ++ suff).take (h.oldStart - pos) =
          mid ++ suff.take (h.oldStart - (pos + mid.length)) := by
        have e : h.oldStart - pos = mid.length + (h.oldStart - (pos + mid.length)) := by
          omega
        rw [e, List.take_append]
      rw [e1, e2, e3]
      by_cases hc : (suff.drop (h.oldStart - (pos + mid.length))).take
          (hunkOld h).length = hunkOld h
      · rw [if_pos hc] at hap ⊢
        generalize applyHunks hs (h.oldStart + (hunkOld h).length)
          (suff.drop (h.oldStart - (pos + mid.length) + (hunkOld h).length)) = w at hap ⊢
        cases w with
        | none => simp at hap
        | some out2 =>
          simp only [Option.some.injEq] at hap ⊢
          rw [← hap]
          simp [List.append_assoc]
      · rw [if_neg hc] at hap; exact absurd hap (by simp)

/-- Applying a hunk located exactly at the current position, whose old side
is exactly the next lines, replaces that old side by the hunk's new side. -/
theorem applyHunks_cons_exact (st nt : Nat) (g : List Run) (hs : List Hunk)
    (rest out : List String)
    (hap : applyHunks hs (st + (runsOld g).length) rest = some out) :
    applyHunks (Hunk.mk st nt g :: hs) st (runsOld g ++ rest) =
      some (runsNew g ++ out) := by
  simp only [applyHunks, hunkOld, hunkNew]
  rw [if_neg (lt_irrefl st)]
  rw [Nat.sub_self]
  simp only [List.drop_zero, Nat.zero_add]
  rw [List.take_left, if_pos rfl, List.drop_left, hap]
  simp

/-- Main grouping invariant: the hunks produced from the remaining runs,
starting from an accumulated group whose old side ends exactly at the
current position, patch the old-side lines to the new-side lines. -/
theorem applyHunks_groupsAux (rs : List Run) :
    ∀ (acc : List Run) (s q t : Nat),
      applyHunks (groupsAux (s + (runsOld acc.reverse).length) q s t acc rs) s
          (runsOld acc.reverse ++ runsOld rs) =
        some (runsNew acc.reverse ++ runsNew rs) := by
  induction rs with
  | nil =>
    intro acc s q t
    simp only [groupsAux, runsOld, runsNew, List.append_nil]
    by_cases hch : hasChange acc
    · rw [if_pos hch]
      have key := applyHunks_cons_exact s t acc.reverse [] [] [] rfl
      simpa using key
    · rw [if_neg hch]
      have h0 : hasChange acc = false := by
        cases hcc : hasChange acc
        · rfl
        · exact absurd hcc hch
      have hacc : hasChange acc.reverse = false := by
        rw [hasChange, List.any_reverse]
        exact h0
      simp [applyHunks, runsOld_eq_runsNew_of_no_change acc.reverse hacc]
  | cons r rest ih =>
    intro acc s q t
    cases r with
    | eqs ls =>
      cases rest with
      | nil =>
        simp only [groupsAux, runsOld, runsNew, runOld, runNew]
        by_cases hch : hasChange acc
        · rw [if_pos hch]
          have key := applyHunks_cons_exact s t
            ((Run.eqs (ls.take 3) :: acc).reverse) [] (ls.drop 3) (ls.drop 3) rfl
          simp only [List.reverse_cons, runsOld_append, runsNew_append,
            runsOld, runsNew, runOld, runNew, List.append_nil,
            List.append_assoc] at key ⊢
          have hsplitR : ∀ R : List String,
              ls.take 3 ++ (ls.drop 3 ++ R) = ls ++ R := by
            intro R
            rw [← List.append_assoc, List.take_append_drop]
          simpa [hsplitR] using key
        · rw [if_neg hch]
          have h0 : hasChange acc = false := by
            cases hcc : hasChange acc
            · rfl
            · exact absurd hcc hch
          have hacc : hasChange acc.reverse = false := by
            rw [hasChange, List.any_reverse]
            exact h0
          simp [applyHunks, runsOld_eq_runsNew_of_no_change acc.reverse hacc]
      | cons r2 rs2 =>
        simp only [groupsAux, runsOld, runsNew, runOld, runNew]
        by_cases hlen : 6 < ls.length
        · rw [if_pos hlen]
          have hlen3 : (ls.drop (ls.length - 3)).length = 3 := by
            rw [List.length_drop]; omega
          have htk3 : (ls.take 3).length = 3 := by
            rw [List.length_take]; omega
          have hmid : ((ls.drop 3).take (ls.length - 6)).length = ls.length - 6 := by
            rw [List.length_take, List.length_drop]; omega
          have ihh := ih [Run.eqs (ls.drop (ls.length - 3))]
            (s + (runsOld acc.reverse).length + ls.length - 3)
            (q + ls.length) (q + ls.length - 3)
          have e1 : s + (runsOld acc.reverse).length + ls.length - 3 +
              (runsOld ([Run.eqs (ls.drop (ls.length - 3))].reverse)).length =
              s + (runsOld acc.reverse).length + ls.length := by
            simp only [List.reverse_cons, List.reverse_nil, List.nil_append,
              runsOld, runOld, List.append_nil, hlen3]
            omega
          rw [e1] at ihh
          simp only [List.reverse_cons, List.reverse_nil, List.nil_append,
            runsOld, runsNew, runOld, runNew, List.append_nil] at ihh
          have e2 : s + (runsOld acc.reverse).length + 3 +
              ((ls.drop 3).take (ls.length - 6)).length =
              s + (runsOld acc.reverse).length + ls.length - 3 := by
            rw [hmid]; omega
          rw [← e2] at ihh
          have hsh := applyHunks_shift _ (s + (runsOld acc.reverse).length + 3)
            ((ls.drop 3).take (ls.length - 6)) _ _ ihh
          have e3 : s + (runsOld ((Run.eqs (ls.take 3) :: acc).reverse)).length =
              s + (runsOld acc.reverse).length + 3 := by
            simp only [List.reverse_cons, runsOld_append, runsOld, runOld,
              List.append_nil, List.length_append, htk3]
            omega
          rw [← e3] at hsh
          have key := applyHunks_cons_exact s t
            ((Run.eqs (ls.take 3) :: acc).reverse) _ _ _ hsh
          have hdd : (ls.drop 3).drop (ls.length - 6) = ls.drop (ls.length - 3) := by
            rw [List.drop_drop]
            congr 1
            omega
          have hsplit : ls.take 3 ++ ((ls.drop 3).take (ls.length - 6) ++
              ls.drop (ls.length - 3)) = ls := by
            rw [← hdd, List.take_append_drop, List.take_append_drop]
          have hsplitR : ∀ R : List String,
              ls.take 3 ++ ((ls.drop 3).take (ls.length - 6) ++
                (ls.drop (ls.length - 3) ++ R)) = ls ++ R := by
            intro R
            conv_rhs => rw [← hsplit]
            simp [List.append_assoc]
          have e4 : s + (runsOld ((Run.eqs (ls.take 3) :: acc).reverse)).length +
              ((ls.drop 3).take (ls.length - 6)).length =
              s + (runsOld acc.reverse).length + ls.length - 3 := by
            rw [e3, hmid]
            omega
          rw [e4] at key
          simp only [List.reverse_cons, runsOld_append, runsNew_append,
            runsOld, runsNew, runOld, runNew, List.append_nil,
            List.append_assoc, hsplitR] at key ⊢
          exact key
        · rw [if_neg hlen]
          have ihh := ih (Run.eqs ls :: acc) s (q + ls.length) t
          simp only [List.reverse_cons, runsOld_append, runsNew_append,
            runsOld, runsNew, runOld, runNew, List.append_nil,
            List.append_assoc, List.length_append, Nat.add_assoc] at ihh ⊢
          exact ihh
    | dels ls =>
      simp only [groupsAux, runsOld, runsNew, runOld, runNew]
      have ihh := ih (Run.dels ls :: acc) s q t
      simp only [List.reverse_cons, runsOld_append, runsNew_append,
        runsOld, runsNew, runOld, runNew, List.append_nil, List.nil_append,
        List.append_assoc, List.length_append, Nat.add_assoc] at ihh ⊢
      exact ihh
    | inss ls =>
      simp only [groupsAux, runsOld, runsNew, runOld, runNew]
      have ihh := ih (Run.inss ls :: acc) s (q + ls.length) t
      simp only [List.reverse_cons, runsOld_append, runsNew_append,
        runsOld, runsNew, runOld, runNew, List.append_nil, List.nil_append,
        List.append_assoc, List.length_append, Nat.add_assoc] at ihh ⊢
      exact ihh

/-- Shifting from position 0: prepending untouched lines before all hunks. -/
theorem applyHunks_shift0 (hs : List Hunk) (mid suff out : List String)
    (hap : applyHunks hs mid.length suff = some out) :
    applyHunks hs 0 (mid ++ suff) = some (mid ++ out) := by
  apply applyHunks_shift
  simpa using hap

/-- The grouped hunks of any run list patch its old side to its new side. -/
theorem patch_makeGroups (runs : List Run) :
    patchUnified (makeGroups runs) (runsOld runs) = some (runsNew runs) := by
  cases runs with
  | nil =>
    have h := applyHunks_groupsAux [] [] 0 0 0
    simpa [patchUnified, makeGroups, runsOld, runsNew] using h
  | cons r rs =>
    cases r with
    | eqs ls =>
      have hk : ls.length - min ls.length 3 ≤ ls.length := by omega
      have h := applyHunks_groupsAux rs
        [Run.eqs (ls.drop (ls.length - min ls.length 3))]
        (ls.length - min ls.length 3) ls.length (ls.length - min ls.length 3)
      simp only [List.reverse_cons, List.reverse_nil, List.nil_append,
        runsOld, runsNew, runOld, runNew, List.append_nil] at h
      have e : ls.length - min ls.length 3 +
          (ls.drop (ls.length - min ls.length 3)).length = ls.length := by
        rw [List.length_drop]; omega
      rw [e] at h
      have hs := applyHunks_shift0 _ (ls.take (ls.length - min ls.length 3)) _ _
        (by rw [List.length_take, min_eq_left hk]; exact h)
      have hA : ∀ R : List String, ls.take (ls.length - min ls.length 3) ++
          (ls.drop (ls.length - min ls.length 3) ++ R) = ls ++ R := by
        intro R
        rw [← List.append_assoc, List.take_append_drop]
      rw [hA, hA] at hs
      simpa [patchUnified, makeGroups, runsOld, runsNew, runOld, runNew] using hs
    | dels ls =>
      have h := applyHunks_groupsAux (Run.dels ls :: rs) [] 0 0 0
      simpa [patchUnified, makeGroups, runsOld, runsNew] using h
    | inss ls =>
      have h := applyHunks_groupsAux (Run.inss ls :: rs) [] 0 0 0
      simpa [patchUnified, makeGroups, runsOld, runsNew] using h

/-- The modelled unified diff of two line lists patches the old lines to
the new lines. -/
theorem patch_makeHunks (a b : List String) :
    patchUnified (makeHunks a b) a = some b := by
  have h := patch_makeGroups (toRuns (diffOps a b))
  rw [runsOld_toRuns, runsNew_toRuns, oldOf_diffOps, newOf_diffOps] at h
  simpa [makeHunks] using h

/-- Joining the kept-ends line split of a character list restores it. -/
theorem joinStr_splitChars (cs : List Char) :
    joinStr (splitChars cs) = String.mk cs := by
  induction cs using splitChars.induct with
  | case1 => rfl
  | case2 cs ih =>
    rw [splitChars.eq_2]
    simp only [joinStr, ih]
    exact rfl
  | case3 cs ih =>
    rw [splitChars.eq_3]
    simp only [joinStr, ih]
    exact rfl
  | case4 cs h ih =>
    rw [splitChars.eq_4 cs h]
    simp only [joinStr, ih]
    exact rfl
  | case5 c cs h1 h2 h3 hnil ih =>
    rw [splitChars.eq_5 c cs h1 h2 h3, hnil]
    rw [hnil] at ih
    have hcs : cs = [] := by
      have h := congrArg String.data ih
      simpa [joinStr] using h.symm
    subst hcs
    exact rfl
  | case6 c cs h1 h2 h3 l ls hcons ih =>
    rw [splitChars.eq_5 c cs h1 h2 h3, hcons]
    rw [hcons] at ih
    apply String.ext
    have hdata : cs = l.data ++ (joinStr ls).data := by
      have h := congrArg String.data ih
      simpa [joinStr, String.data_append] using h.symm
    simp [joinStr, String.data_append, hdata]

/-- Joining the kept-ends line split of a string restores the string. -/
theorem joinStr_splitlines (s : String) :
    joinStr (splitlinesKeepends s) = s := by
  cases s with
  | mk data => exact joinStr_splitChars data

/-! ### C9: the produced diff patches A to B -/

/-- C9: for all texts A and B that are distinct after stripping, with A
non-empty, `detect_changes` returns the "Changes detected" classification
whose diff payload renders the unified-diff hunks of the two kept-ends line
splits; applying those hunks to A's lines under standard unified-diff patch
semantics succeeds and reproduces B exactly (joining the patched lines
gives B). -/
theorem C9_changed_diff_patches_old_to_new (A B : String) (hA : A ≠ "")
    (hne : pyStrip A ≠ pyStrip B) :
    detect_changes A B =
      ("Changes detected",
        renderDiff (splitlinesKeepends A) (splitlinesKeepends B)) ∧
    ∃ patched,
      patchUnified (makeHunks (splitlinesKeepends A) (splitlinesKeepends B))
          (splitlinesKeepends A) = some patched ∧
      joinStr patched = B := by
  exact ⟨by simp [detect_changes, hA, hne],
    splitlinesKeepends B, patch_makeHunks _ _, joinStr_splitlines B⟩

/-- C9 witness: the round trip at the concrete texts "a\n" and "b\n". -/
theorem C9_changed_diff_patches_old_to_new_witness :
    ("a\n" ≠ "" ∧ pyStrip "a\n" ≠ pyStrip "b\n") ∧
    (detect_changes "a\n" "b\n" =
      ("Changes detected",
        renderDiff (splitlinesKeepends "a\n") (splitlinesKeepends "b\n")) ∧
    ∃ patched,
      patchUnified (makeHunks (splitlinesKeepends "a\n") (splitlinesKeepends "b\n"))
          (splitlinesKeepends "a\n") = some patched ∧
      joinStr patched = "b\n") :=
  ⟨⟨by decide, by decide⟩,
    C9_changed_diff_patches_old_to_new "a\n" "b\n" (by decide) (by decide)⟩
